import Mathlib


/-!
# Verification of the python-pilosa import pipeline

Shallow embedding of `pilosa/imports.py` and `pilosa/client.py` (the
record readers, the shard partitioner, the row-oriented and roaring
request encoders, and the dispatch logic of `Client._import_data` /
`Client.import_field`), with theorems checking the natural-language
specification against it.

Conventions: Python strings are Lean `String` (a wrapper around
`List Char`), Python `int` is `Int` (or `Nat` for ids, which the
pipeline never makes negative), Python exceptions are `Except`,
Python dicts (which preserve insertion order) are association lists
updated in place, and the `roaring.Bitmap` set is a duplicate-free
`List Nat`.
-/

set_option maxRecDepth 4096


namespace Pilosa



/-- `pilosa.imports.Column`: one row/column bit record.  Exactly the five
attributes of the Python class, with ids as `Nat`, keys as `String` and
the epoch-seconds timestamp as `Int`. -/
structure Column where
  row_id : Nat := 0
  column_id : Nat := 0
  row_key : String := ""
  column_key : String := ""
  timestamp : Int := 0
deriving DecidableEq, Repr

/-- `pilosa.imports.FieldValue`: one column/value record. -/
structure FieldValue where
  column_id : Nat := 0
  column_key : String := ""
  value : Int := 0
deriving DecidableEq, Repr

/-! ## The shard partitioner: `pilosa.imports.batch_columns`

`batch_columns` pulls up to `batch_size` records at a time from the
reader and groups each pulled batch by `bit.column_id // shard_width`
with `bit_groups.setdefault(key, []).append(bit)` over a Python dict.
A dict preserves key insertion order and appends within each group, so
the grouping is modelled as an in-place update of an association list.
`batch_columns` only reads `bit.column_id`, so the embedding takes the
projection `colId` as a parameter; `Column.column_id` and
`FieldValue.column_id` are the two instantiations used by the client. -/

/-- `bit_groups.setdefault(key, []).append(bit)` on an insertion-ordered
dict: append `bit` to the group of `key`, creating the group at the end
when `key` is new. -/
def addToGroup {α : Type} (key : Nat) (bit : α) : List (Nat × List α) → List (Nat × List α)
  | [] => [(key, [bit])]
  | (k, g) :: rest =>
    if k = key then (k, g ++ [bit]) :: rest else (k, g) :: addToGroup key bit rest

/-- The `for bit in batch` grouping loop of `batch_columns`. -/
def groupByShard {α : Type} (colId : α → Nat) (shard_width : Nat) (batch : List α) :
    List (Nat × List α) :=
  batch.foldl (fun groups bit => addToGroup (colId bit / shard_width) bit groups) []

/-- `pilosa.imports.batch_columns(reader, batch_size, shard_width)`:
repeatedly slice `batch_size` records off the reader, group each batch
by shard and emit the `(shard, group)` pairs; stop on an empty slice. -/
def batchColumns {α : Type} (colId : α → Nat) (batch_size shard_width : Nat) :
    List α → List (Nat × List α)
  | [] => []
  | r :: rs =>
    if _h : batch_size = 0 then
      -- islice(reader, 0) is empty, so the Python loop breaks at once
      []
    else
      groupByShard colId shard_width ((r :: rs).take batch_size) ++
        batchColumns colId batch_size shard_width ((r :: rs).drop batch_size)
termination_by l => l.length
decreasing_by
  simp only [List.length_drop, List.length_cons]
  omega

/-- All records emitted by a record-group list, in emission order. -/
def groupRecords {α : Type} (groups : List (Nat × List α)) : List α :=
  groups.foldr (fun g acc => g.2 ++ acc) []

/-! ## Field descriptors and the row-oriented encoder

`orm.Field` carries `name`, its `index` (with `name`, `keys`,
`shard_width`), `keys` and `time_quantum`; `field_type` is a property
computed from the options.  The import pipeline only reads those, so the
descriptor is flattened into one structure.  `field_type` is kept as the
string the Python property returns (one of `"set"`, `"int"`, `"time"`,
`"mutex"`, `"bool"`), and `time_quantum` as the string form, `""` for
`TimeQuantum.NONE`. -/

structure FieldDescriptor where
  name : String
  index_name : String
  field_type : String
  index_keys : Bool
  field_keys : Bool
  time_quantum : String
  index_shard_width : Nat
deriving DecidableEq, Repr

/-- The four row/column addressing variants of `_ImportRequest.format`
(the Python code stores one of the `csv_*` formatter functions and
compares it by identity in `to_protobuf`). -/
inductive RowFormat where
  | row_id_column_id
  | row_id_column_key
  | row_key_column_id
  | row_key_column_key
deriving DecidableEq, Repr

/-- Format selection in `_ImportRequest.__init__`:
`csv_row_key_column_key if field.keys else csv_row_id_column_key` when
`field.index.keys`, otherwise
`csv_row_key_column_id if field.keys else csv_row_id_column_id`. -/
def importFormat (index_keys field_keys : Bool) : RowFormat :=
  if index_keys then
    if field_keys then .row_key_column_key else .row_id_column_key
  else
    if field_keys then .row_key_column_id else .row_id_column_id

/-- The decoded form of `internal.ImportRequest` built by
`_ImportRequest.to_protobuf` (protobuf repeated fields as lists). -/
structure ImportRequest where
  Index : String
  Field : String
  Shard : Nat
  RowIDs : List Nat
  ColumnIDs : List Nat
  RowKeys : List String
  ColumnKeys : List String
  Timestamps : List Int
deriving DecidableEq, Repr

/-- `_ImportRequest.to_protobuf`: one append per record into the arrays
selected by `self.format` (appending field `f` of each record in order
is `columns.map f`). -/
def toProtobuf (fmt : RowFormat) (index_name field_name : String) (shard : Nat)
    (columns : List Column) : ImportRequest :=
  match fmt with
  | .row_id_column_id =>
      { Index := index_name, Field := field_name, Shard := shard,
        RowIDs := columns.map Column.row_id, ColumnIDs := columns.map Column.column_id,
        RowKeys := [], ColumnKeys := [], Timestamps := columns.map Column.timestamp }
  | .row_id_column_key =>
      { Index := index_name, Field := field_name, Shard := shard,
        RowIDs := columns.map Column.row_id, ColumnIDs := [],
        RowKeys := [], ColumnKeys := columns.map Column.column_key,
        Timestamps := columns.map Column.timestamp }
  | .row_key_column_id =>
      { Index := index_name, Field := field_name, Shard := shard,
        RowIDs := [], ColumnIDs := columns.map Column.column_id,
        RowKeys := columns.map Column.row_key, ColumnKeys := [],
        Timestamps := columns.map Column.timestamp }
  | .row_key_column_key =>
      { Index := index_name, Field := field_name, Shard := shard,
        RowIDs := [], ColumnIDs := [],
        RowKeys := columns.map Column.row_key, ColumnKeys := columns.map Column.column_key,
        Timestamps := columns.map Column.timestamp }

/-! ## Sorting before encoding: `Client._import_data` -/

/-- The sort key of `data.sort(key=lambda col: (col.row_id, col.column_id))`:
Python tuple order on `(row_id, column_id)`. -/
def colKeyLe (a b : Column) : Prop :=
  a.row_id < b.row_id ∨ (a.row_id = b.row_id ∧ a.column_id ≤ b.column_id)

instance : DecidableRel colKeyLe := fun a b => by
  unfold colKeyLe
  infer_instance

instance : IsTotal Column colKeyLe :=
  ⟨by intro a b; unfold colKeyLe; omega⟩

instance : IsTrans Column colKeyLe :=
  ⟨by intro a b c hab hbc; unfold colKeyLe at hab hbc ⊢; omega⟩

/-- `data.sort(key=lambda col: (col.row_id, col.column_id))`: a stable
sort ascending by the `(row_id, column_id)` key. -/
def sortByRowCol (data : List Column) : List Column :=
  List.insertionSort colKeyLe data

/-- The data preparation step at the top of `Client._import_data`:
`if field.field_type != "int": if not field.index.keys: data.sort(...)`. -/
def importDataPrepared (field : FieldDescriptor) (data : List Column) : List Column :=
  if field.field_type ≠ "int" then
    if field.index_keys = false then sortByRowCol data else data
  else data

/-! ## Import path selection: `Client._import_data` dispatch -/

/-- Which import request is sent for one node in `Client._import_data`:
the value path (`_ImportValueRequest` + `_import_node`), the compressed
bitmap fast path (`_import_node_fast`, which POSTs to
`/index/{index}/field/{field}/import-roaring/{shard}`), or the
row-oriented path (`_ImportRequest` + `_import_node`). -/
inductive ImportRoute where
  | value
  | fast
  | rowOriented
deriving DecidableEq, Repr

/-- The URL of the fast-path POST built in `Client._import_node_fast`. -/
def importNodeFastPath (index_name field_name : String) (shard : Nat) : String :=
  "/index/" ++ index_name ++ "/field/" ++ field_name ++ "/import-roaring/" ++ toString shard

/-- The dispatch branching of `Client._import_data`:
`if field.field_type == "int": ... else: if fast_import and
field.field_type in ["set", "bool", "time"] and
req.format == csv_row_id_column_id: _import_node_fast ... else:
_import_node ...`. -/
def importRoute (field : FieldDescriptor) (fast_import : Bool) : ImportRoute :=
  if field.field_type = "int" then .value
  else if fast_import = true ∧ field.field_type ∈ (["set", "bool", "time"] : List String) ∧
      importFormat field.index_keys field.field_keys = .row_id_column_id then .fast
  else .rowOriented

/-! ## Destination resolution: `Client._import_data` node lookup -/

/-- Where one shard group is sent.  `.coordinator` corresponds to the
`self._fetch_coordinator_node()` branch and `.fragments` to the
`self._fetch_fragment_nodes(field.index.name, shard)` branch of
`Client._import_data`; they are distinct constructors, so resolving to
the coordinator entails the fragment-nodes lookup is not performed. -/
inductive Destination where
  | manual
  | coordinator
  | fragments (index_name : String) (shard : Nat)
deriving DecidableEq, Repr

/-- The node-resolution branching of `Client._import_data`:
`if self.use_manual_address: ... else: if field.index.keys or
field.keys: [coordinator] else: fragment_nodes(index, shard)`. -/
def resolveDestination (use_manual_address : Bool) (field : FieldDescriptor)
    (shard : Nat) : Destination :=
  if use_manual_address then .manual
  else if field.index_keys || field.field_keys then .coordinator
  else .fragments field.index_name shard

/-! ## The roaring fast-path encoder: `_ImportRequest.to_bitmap`

`to_bitmap` sets a local `shard_width = 1048576` (it does not read the
field's index shard width) and builds `{view_name: Bitmap}` via
`_field_set_to_roaring` or, when the field has a time quantum,
`_field_time_to_roaring`; `_make_roaring_request` then serializes that
dict verbatim, one view per entry, so the embedding stops at the dict.
A `roaring.Bitmap` is a set of added integers, modelled as a
duplicate-free list. -/

/-- `Bitmap.add`: insert the value if not already present. -/
def bitmapAdd (bm : List Nat) (n : Nat) : List Nat :=
  if n ∈ bm then bm else bm ++ [n]

/-- One view-map update of `_field_time_to_roaring`:
`bmp = bitmaps.get(view_name); if not bmp: bmp = Bitmap();
bitmaps[view_name] = bmp; bmp.add(bit)` on an insertion-ordered dict.
An absent (or empty, hence falsy) entry becomes `[bit]`, which is
`bitmapAdd [] bit`; an existing non-empty entry is mutated in place. -/
def updateView (name : String) (bit : Nat) :
    List (String × List Nat) → List (String × List Nat)
  | [] => [(name, [bit])]
  | (k, bm) :: rest =>
    if k = name then (k, bitmapAdd bm bit) :: rest
    else (k, bm) :: updateView name bit rest

/-- `self._time_formats` together with the `.get(c, "")` lookup made in
`_field_time_to_roaring`. -/
def timeFormat (c : Char) : String :=
  if c = 'Y' then "%Y"
  else if c = 'M' then "%Y%m"
  else if c = 'D' then "%Y%m%d"
  else if c = 'H' then "%Y%m%d%H"
  else ""

/-- The fields of `datetime.utcfromtimestamp(ts)` that the strftime
formats above read. -/
structure UtcTime where
  year : Int
  month : Int
  day : Int
  hour : Int
deriving DecidableEq, Repr

/-- Days-to-civil-date conversion of the proleptic Gregorian calendar
(the standard era decomposition), with floor division throughout; models
the date part of CPython's `datetime.utcfromtimestamp`. -/
def civilFromDays (z0 : Int) : Int × Int × Int :=
  let z := z0 + 719468
  let era := z.ediv 146097
  let doe := z.emod 146097
  let yoe := (doe - doe.ediv 1460 + doe.ediv 36524 - doe.ediv 146096).ediv 365
  let y := yoe + era * 400
  let doy := doe - (365 * yoe + yoe.ediv 4 - yoe.ediv 100)
  let mp := (5 * doy + 2).ediv 153
  let d := doy - (153 * mp + 2).ediv 5 + 1
  let m := mp + (if mp < 10 then 3 else -9)
  (if m ≤ 2 then y + 1 else y, m, d)

/-- Model of `datetime.utcfromtimestamp` on whole epoch seconds: floor
split into days and seconds-of-day, then the civil date. -/
def utcfromtimestamp (ts : Int) : UtcTime :=
  let days := ts.ediv 86400
  let secs := ts.emod 86400
  let ymd := civilFromDays days
  { year := ymd.1, month := ymd.2.1, day := ymd.2.2, hour := secs.ediv 3600 }

/-- Zero padding of `%m`, `%d`, `%H`. -/
def pad2 (n : Int) : String :=
  if n < 10 then "0" ++ toString n else toString n

/-- `datetime.strftime` restricted to the formats `_time_formats` can
produce (including the empty format from the `.get(c, "")` default). -/
def strftimeView (fmt : String) (t : UtcTime) : String :=
  if fmt = "%Y" then toString t.year
  else if fmt = "%Y%m" then toString t.year ++ pad2 t.month
  else if fmt = "%Y%m%d" then toString t.year ++ pad2 t.month ++ pad2 t.day
  else if fmt = "%Y%m%d%H" then
    toString t.year ++ pad2 t.month ++ pad2 t.day ++ pad2 t.hour
  else ""

/-- The view name derived for quantum character `c` from a record's
timestamp: `datetime.utcfromtimestamp(b.timestamp).strftime(fmt)`. -/
def quantumViewName (c : Char) (timestamp : Int) : String :=
  strftimeView (timeFormat c) (utcfromtimestamp timestamp)

/-- The single integer a record is mapped to on the fast path, with the
`shard_width = 1048576` that `to_bitmap` hardcodes. -/
def toBitmapBit (b : Column) : Nat :=
  b.row_id * 1048576 + b.column_id % 1048576

/-- `_ImportRequest._field_set_to_roaring`: a single standard view. -/
def fieldSetToRoaring (shard_width : Nat) (columns : List Column) :
    List (String × List Nat) :=
  [("", columns.foldl
      (fun bm b => bitmapAdd bm (b.row_id * shard_width + b.column_id % shard_width)) [])]

/-- The body of the `for b in self.columns` loop of
`_field_time_to_roaring`: add the record's bit to the standard view,
then to one view per quantum character. -/
def addRecordViews (quantum : String) (shard_width : Nat)
    (views : List (String × List Nat)) (b : Column) : List (String × List Nat) :=
  quantum.toList.foldl
    (fun views c => updateView (quantumViewName c b.timestamp)
      (b.row_id * shard_width + b.column_id % shard_width) views)
    (updateView "" (b.row_id * shard_width + b.column_id % shard_width) views)

/-- `_ImportRequest._field_time_to_roaring`: starts from
`{"": standard}` and folds the records through `addRecordViews`. -/
def fieldTimeToRoaring (quantum : String) (shard_width : Nat)
    (columns : List Column) : List (String × List Nat) :=
  columns.foldl (addRecordViews quantum shard_width) [("", [])]

/-- `_ImportRequest.to_bitmap`: hardcodes `shard_width = 1048576` and
selects the time encoder iff `self.field_time_quantum` is non-empty. -/
def toBitmapViews (quantum : String) (columns : List Column) :
    List (String × List Nat) :=
  if quantum ≠ "" then fieldTimeToRoaring quantum 1048576 columns
  else fieldSetToRoaring 1048576 columns

/-! ## The fast-path bit and the hardcoded shard width (C6) -/

/-- The bit the spec sentence for C6 prescribes, computed from the
field's index shard width with `1048576` as the default for an unset
width — stated from the spec's words, to be compared with the bit
`to_bitmap` actually computes (`toBitmapBit`, hardcoded `1048576`). -/
def claimedBitmapBit (index_shard_width : Nat) (b : Column) : Nat :=
  let sw := if index_shard_width = 0 then 1048576 else index_shard_width
  b.row_id * sw + b.column_id % sw

/-- Lookup in the insertion-ordered view dict. -/
def viewLookup (name : String) : List (String × List Nat) → Option (List Nat)
  | [] => none
  | (k, bm) :: rest => if k = name then some bm else viewLookup name rest

/-! ## The CSV record readers: `pilosa/imports.py`

Python strings are handled through their character lists: `line.strip()`
is `pyStrip`, `line.split(",")` is `pySplitComma`, and `int(s)` is
`pyInt` (ids are modelled as the non-negative integers the wire format's
uint64 arrays carry).  A reader is a function from the list of produced
lines to `Except`: consuming the Python generator either yields all
records or raises at the first bad line, aborting the read. -/

/-- The whitespace `str.strip()` (and `int()`) removes. -/
def isPyWhitespace (c : Char) : Bool :=
  c == ' ' || c == '\t' || c == '\n' || c == '\r' || c == '\x0b' || c == '\x0c'

def stripChars (l : List Char) : List Char :=
  ((l.dropWhile isPyWhitespace).reverse.dropWhile isPyWhitespace).reverse

/-- `line.strip()`. -/
def pyStrip (s : String) : String := ⟨stripChars s.data⟩

def splitCommaChars : List Char → List (List Char)
  | [] => [[]]
  | c :: cs =>
    if c = ',' then [] :: splitCommaChars cs
    else
      match splitCommaChars cs with
      | [] => [[c]]
      | p :: ps => (c :: p) :: ps

/-- `s.split(",")`: split at every comma, keeping empty pieces
(`"".split(",") == [""]`). -/
def pySplitComma (s : String) : List String :=
  (splitCommaChars s.data).map fun l => ⟨l⟩

def digitsToNat (l : List Char) : Nat :=
  l.foldl (fun acc c => acc * 10 + (c.toNat - '0'.toNat)) 0

/-- Python `int(str)`: optional surrounding whitespace, optional single
sign, then at least one decimal digit; anything else raises
`ValueError` (`none` here). -/
def pyInt (s : String) : Option Int :=
  let t := stripChars s.data
  match t with
  | '-' :: rest =>
      if rest ≠ [] ∧ rest.all Char.isDigit then some (-(digitsToNat rest : Int)) else none
  | '+' :: rest =>
      if rest ≠ [] ∧ rest.all Char.isDigit then some (digitsToNat rest : Int) else none
  | _ => if t ≠ [] ∧ t.all Char.isDigit then some (digitsToNat t : Int) else none

/-- The exceptions a reader can raise: the wrapped
`PilosaError("Invalid CSV line: %s", line)` or an uncaught `ValueError`
escaping from `int()` (or the time-parsing function). -/
inductive ReadError where
  | pilosaError (line : String)
  | valueError (arg : String)
deriving DecidableEq, Repr

/-- `int(s)` as used by the formatter functions: a failed conversion is
a `ValueError` carrying the argument. -/
def parseIntField (s : String) : Except ReadError Int :=
  match pyInt s with
  | some n => .ok n
  | none => .error (.valueError s)

/-- `csv_row_id_column_id(parts, timestamp)`. -/
def csv_row_id_column_id (parts : List String) (timestamp : Int) :
    Except ReadError Column :=
  match parseIntField (parts.getD 0 "") with
  | .error e => .error e
  | .ok rid =>
    match parseIntField (parts.getD 1 "") with
    | .error e => .error e
    | .ok cid => .ok { row_id := rid.toNat, column_id := cid.toNat, timestamp := timestamp }

/-- `csv_row_id_column_key(parts, timestamp)`. -/
def csv_row_id_column_key (parts : List String) (timestamp : Int) :
    Except ReadError Column :=
  match parseIntField (parts.getD 0 "") with
  | .error e => .error e
  | .ok rid => .ok { row_id := rid.toNat, column_key := parts.getD 1 "", timestamp := timestamp }

/-- `csv_row_key_column_id(parts, timestamp)`. -/
def csv_row_key_column_id (parts : List String) (timestamp : Int) :
    Except ReadError Column :=
  match parseIntField (parts.getD 1 "") with
  | .error e => .error e
  | .ok cid => .ok { row_key := parts.getD 0 "", column_id := cid.toNat, timestamp := timestamp }

/-- `csv_row_key_column_key(parts, timestamp)`: both fields used exactly
as split, no per-field trimming. -/
def csv_row_key_column_key (parts : List String) (timestamp : Int) :
    Except ReadError Column :=
  .ok { row_key := parts.getD 0 "", column_key := parts.getD 1 "", timestamp := timestamp }

/-- `csv_column_id_value(parts, timestamp)`. -/
def csv_column_id_value (parts : List String) (_timestamp : Int) :
    Except ReadError FieldValue :=
  match parseIntField (parts.getD 0 "") with
  | .error e => .error e
  | .ok cid =>
    match parseIntField (parts.getD 1 "") with
    | .error e => .error e
    | .ok v => .ok { column_id := cid.toNat, value := v }

/-- `csv_column_key_value(parts, timestamp)`. -/
def csv_column_key_value (parts : List String) (_timestamp : Int) :
    Except ReadError FieldValue :=
  match parseIntField (parts.getD 1 "") with
  | .error e => .error e
  | .ok v => .ok { column_key := parts.getD 0 "", value := v }

/-- The default `timefunc=int` of `csv_column_reader`. -/
def defaultTimefunc (s : String) : Except ReadError Int := parseIntField s

/-- The `except ValueError: raise PilosaError("Invalid CSV line: %s", line)`
wrapper of `csv_column_reader`: a `ValueError` becomes the
`PilosaError` naming the (stripped) line; anything else passes through
(in particular the `PilosaError` raised for a bad field count). -/
def catchValueError {α : Type} (line : String) :
    Except ReadError α → Except ReadError α
  | .error (.valueError _) => .error (.pilosaError line)
  | r => r

/-- One loop iteration of `csv_column_reader` on a produced line:
`none` when the stripped line is blank (the loop continues), otherwise
the outcome of splitting on commas and dispatching on the field count
(2 fields: timestamp 0; 3 fields: third field through `timefunc`;
anything else: `PilosaError`), with `ValueError` caught and wrapped. -/
def columnLineResult (timefunc : String → Except ReadError Int)
    (formatfunc : List String → Int → Except ReadError Column)
    (line0 : String) : Option (Except ReadError Column) :=
  if pyStrip line0 = "" then none
  else
    some (catchValueError (pyStrip line0)
      (if (pySplitComma (pyStrip line0)).length = 2 then
        formatfunc (pySplitComma (pyStrip line0)) 0
      else if (pySplitComma (pyStrip line0)).length = 3 then
        match timefunc ((pySplitComma (pyStrip line0)).getD 2 "") with
        | .error e => .error e
        | .ok ts => formatfunc (pySplitComma (pyStrip line0)) ts
      else .error (.pilosaError (pyStrip line0))))

/-- `csv_column_reader(file_obj, timefunc, formatfunc)`, consumed to a
list: the first failing line aborts the read. -/
def csv_column_reader (timefunc : String → Except ReadError Int)
    (formatfunc : List String → Int → Except ReadError Column) :
    List String → Except ReadError (List Column)
  | [] => .ok []
  | l :: ls =>
    match columnLineResult timefunc formatfunc l with
    | none => csv_column_reader timefunc formatfunc ls
    | some (.error e) => .error e
    | some (.ok c) =>
      match csv_column_reader timefunc formatfunc ls with
      | .error e => .error e
      | .ok cs => .ok (c :: cs)

/-- One loop iteration of `csv_field_value_reader`: the format call is
**not** wrapped in `try`/`except ValueError` (only the bad-field-count
branch raises `PilosaError`), so its errors pass through unchanged. -/
def valueLineResult (formatfunc : List String → Int → Except ReadError FieldValue)
    (line0 : String) : Option (Except ReadError FieldValue) :=
  if pyStrip line0 = "" then none
  else
    some (if (pySplitComma (pyStrip line0)).length = 2 then
      formatfunc (pySplitComma (pyStrip line0)) 0
    else .error (.pilosaError (pyStrip line0)))

/-- `csv_field_value_reader(file_obj, formatfunc)`, consumed to a list. -/
def csv_field_value_reader (formatfunc : List String → Int → Except ReadError FieldValue) :
    List String → Except ReadError (List FieldValue)
  | [] => .ok []
  | l :: ls =>
    match valueLineResult formatfunc l with
    | none => csv_field_value_reader formatfunc ls
    | some (.error e) => .error e
    | some (.ok v) =>
      match csv_field_value_reader formatfunc ls with
      | .error e => .error e
      | .ok vs => .ok (v :: vs)

/-! ## Failure propagation: `Client.__http_request` and `import_field` -/

/-- `PilosaServerError`, carrying the response status. -/
inductive ClientError where
  | serverError (status : Nat)
deriving DecidableEq, Repr

/-- The final check of `Client.__http_request`: a response is returned
iff `200 <= response.status < 300`, otherwise `PilosaServerError` is
raised. -/
def httpCheckStatus (status : Nat) : Except ClientError Unit :=
  if 200 ≤ status ∧ status < 300 then .ok () else .error (.serverError status)

/-- The dispatch loop of `Client.import_field`: `for shard, columns in
batch_columns(...)` runs `_import_data`, which ends in one HTTP POST
per destination node; a non-2xx response raises through
`__http_request` and the exception propagates out of the loop at once.
`statuses` are the HTTP statuses received by the successive POSTs, in
dispatch order; the result pairs the number of POSTs actually issued
with the outcome — an `Except` carrying only the terminal error, with
no record of which earlier requests committed. -/
def runImportPosts : List Nat → Nat × Except ClientError Unit
  | [] => (0, .ok ())
  | s :: rest =>
    match httpCheckStatus s with
    | .ok _ => ((runImportPosts rest).1 + 1, (runImportPosts rest).2)
    | .error e => (1, .error e)

/-! ## Theorems -/

theorem groupRecords_nil {α : Type} : groupRecords ([] : List (Nat × List α)) = [] := rfl

theorem groupRecords_cons {α : Type} (g : Nat × List α) (gs : List (Nat × List α)) :
    groupRecords (g :: gs) = g.2 ++ groupRecords gs := rfl

theorem groupRecords_append {α : Type} (gs hs : List (Nat × List α)) :
    groupRecords (gs ++ hs) = groupRecords gs ++ groupRecords hs := by
  induction gs with
  | nil => simp [groupRecords_nil, groupRecords]
  | cons g gs ih => simp [groupRecords_cons, ih, List.append_assoc]

theorem groupRecords_addToGroup {α : Type} (key : Nat) (bit : α)
    (gs : List (Nat × List α)) :
    (groupRecords (addToGroup key bit gs)).Perm (bit :: groupRecords gs) := by
  induction gs with
  | nil => simp [addToGroup, groupRecords]
  | cons g gs ih =>
    obtain ⟨k, grp⟩ := g
    by_cases hk : k = key
    · simp only [addToGroup, if_pos hk, groupRecords_cons, List.append_assoc,
        List.singleton_append]
      exact List.perm_middle
    · simp only [addToGroup, if_neg hk, groupRecords_cons]
      exact (List.Perm.append_left grp ih).trans List.perm_middle

theorem groupRecords_foldl_perm {α : Type} (colId : α → Nat) (shard_width : Nat)
    (batch : List α) (gs : List (Nat × List α)) :
    (groupRecords (batch.foldl
        (fun groups bit => addToGroup (colId bit / shard_width) bit groups) gs)).Perm
      (batch ++ groupRecords gs) := by
  induction batch generalizing gs with
  | nil => simp
  | cons b bs ih =>
    simp only [List.foldl_cons, List.cons_append]
    exact (ih _).trans
      ((List.Perm.append_left bs (groupRecords_addToGroup _ _ _)).trans List.perm_middle)

/-- Grouping a batch neither drops nor duplicates records. -/
theorem groupByShard_perm {α : Type} (colId : α → Nat) (shard_width : Nat)
    (batch : List α) :
    (groupRecords (groupByShard colId shard_width batch)).Perm batch := by
  have h := groupRecords_foldl_perm colId shard_width batch []
  simpa [groupByShard, groupRecords] using h

/-- Every record of every group built by `addToGroup`-folding sits under
its own shard key, provided the accumulator already does. -/
theorem groupByShard_key_sound {α : Type} (colId : α → Nat) (shard_width : Nat)
    (batch : List α) (gs : List (Nat × List α))
    (hgs : ∀ p ∈ gs, ∀ r ∈ p.2, colId r / shard_width = p.1) :
    ∀ p ∈ batch.foldl
        (fun groups bit => addToGroup (colId bit / shard_width) bit groups) gs,
      ∀ r ∈ p.2, colId r / shard_width = p.1 := by
  induction batch generalizing gs with
  | nil => simpa using hgs
  | cons b bs ih =>
    simp only [List.foldl_cons]
    apply ih
    intro p hp r hr
    clear ih
    induction gs with
    | nil =>
      simp only [addToGroup, List.mem_singleton] at hp
      subst hp
      simp only [List.mem_singleton] at hr
      subst hr
      rfl
    | cons g gs ihg =>
      obtain ⟨k, grp⟩ := g
      by_cases hk : k = colId b / shard_width
      · simp only [addToGroup, if_pos hk, List.mem_cons] at hp
        rcases hp with hp | hp
        · subst hp
          simp only [List.mem_append, List.mem_singleton] at hr
          rcases hr with hr | hr
          · exact hgs (k, grp) (by simp) r hr
          · subst hr; exact hk.symm
        · exact hgs p (by simp [hp]) r hr
      · simp only [addToGroup, if_neg hk, List.mem_cons] at hp
        rcases hp with hp | hp
        · subst hp
          exact hgs (k, grp) (by simp) r hr
        · exact ihg (fun q hq => hgs q (by simp [List.mem_cons] at hq ⊢; tauto)) hp

theorem batchColumns_perm {α : Type} (colId : α → Nat) (batch_size shard_width : Nat)
    (hb : 1 ≤ batch_size) (records : List α) :
    (groupRecords (batchColumns colId batch_size shard_width records)).Perm records := by
  suffices h : ∀ n (records : List α), records.length = n →
      (groupRecords (batchColumns colId batch_size shard_width records)).Perm records by
    exact h records.length records rfl
  intro n
  induction n using Nat.strong_induction_on with
  | _ n ih =>
    intro records hlen
    match records with
    | [] => simp [batchColumns, groupRecords]
    | r :: rs =>
      rw [batchColumns, dif_neg (by omega), groupRecords_append]
      have hdroplen : ((r :: rs).drop batch_size).length < n := by
        simp only [List.length_drop, List.length_cons]
        simp only [List.length_cons] at hlen
        omega
      have h1 := groupByShard_perm colId shard_width ((r :: rs).take batch_size)
      have h2 := ih _ hdroplen ((r :: rs).drop batch_size) rfl
      have h3 := List.Perm.append h1 h2
      simpa [List.take_append_drop] using h3

theorem batchColumns_key {α : Type} (colId : α → Nat) (batch_size shard_width : Nat)
    (records : List α) :
    ∀ p ∈ batchColumns colId batch_size shard_width records,
      ∀ r ∈ p.2, colId r / shard_width = p.1 := by
  suffices h : ∀ n (records : List α), records.length = n →
      ∀ p ∈ batchColumns colId batch_size shard_width records,
        ∀ r ∈ p.2, colId r / shard_width = p.1 by
    exact h records.length records rfl
  intro n
  induction n using Nat.strong_induction_on with
  | _ n ih =>
    intro records hlen
    match records with
    | [] => simp [batchColumns]
    | r :: rs =>
      rw [batchColumns]
      by_cases h : batch_size = 0
      · simp [dif_pos h]
      · rw [dif_neg h]
        intro p hp q hq
        have hdroplen : ((r :: rs).drop batch_size).length < n := by
          simp only [List.length_drop, List.length_cons]
          simp only [List.length_cons] at hlen
          omega
        rcases List.mem_append.mp hp with hp | hp
        · exact groupByShard_key_sound colId shard_width _ [] (by simp) p hp q hq
        · exact ih _ hdroplen ((r :: rs).drop batch_size) rfl p hp q hq

/-- **C1**: for every finite record sequence, every `batch_size ≥ 1` and
`shard_width ≥ 1`, `batch_columns` places each input record into exactly
one emitted `(shard_id, group)` pair (the multiset of all emitted records
is a permutation of the input), and every record placed into group
`shard_id` satisfies `record.column_id / shard_width = shard_id`; the
statement is instantiated both with `Column` records and with
`FieldValue` records (`batch_columns` only reads `column_id`). -/
theorem batch_columns_partition_correct (batch_size shard_width : Nat)
    (hb : 1 ≤ batch_size) (_hw : 1 ≤ shard_width) :
    (∀ records : List Column,
      (groupRecords (batchColumns Column.column_id batch_size shard_width records)).Perm
          records ∧
      ∀ p ∈ batchColumns Column.column_id batch_size shard_width records,
        ∀ r ∈ p.2, r.column_id / shard_width = p.1) ∧
    (∀ records : List FieldValue,
      (groupRecords (batchColumns FieldValue.column_id batch_size shard_width records)).Perm
          records ∧
      ∀ p ∈ batchColumns FieldValue.column_id batch_size shard_width records,
        ∀ r ∈ p.2, r.column_id / shard_width = p.1) := by
  refine ⟨fun records => ⟨?_, ?_⟩, fun records => ⟨?_, ?_⟩⟩
  · exact batchColumns_perm Column.column_id batch_size shard_width hb records
  · exact batchColumns_key Column.column_id batch_size shard_width records
  · exact batchColumns_perm FieldValue.column_id batch_size shard_width hb records
  · exact batchColumns_key FieldValue.column_id batch_size shard_width records

/-- Witness for `batch_columns_partition_correct` at `batch_size = 2`,
`shard_width = 3` on concrete `Column` and `FieldValue` lists. -/
theorem batch_columns_partition_correct_witness :
    (1 ≤ 2 ∧ 1 ≤ 3) ∧
    ((groupRecords (batchColumns Column.column_id 2 3
        [{ row_id := 1, column_id := 1 }, { row_id := 2, column_id := 5 },
         { row_id := 3, column_id := 2 }])).Perm
      [{ row_id := 1, column_id := 1 }, { row_id := 2, column_id := 5 },
       { row_id := 3, column_id := 2 }]) ∧
    (∀ p ∈ batchColumns FieldValue.column_id 2 3
        [{ column_id := 4, value := 7 }, { column_id := 0, value := 9 }],
      ∀ r ∈ p.2, r.column_id / 3 = p.1) :=
  ⟨⟨by decide, by decide⟩,
   ((batch_columns_partition_correct 2 3 (by decide) (by decide)).1 _).1,
   ((batch_columns_partition_correct 2 3 (by decide) (by decide)).2 _).2⟩

/-- **C2**: for every `_ImportRequest` built from a field descriptor (any
combination of index/field key modes) and a non-empty record list, the
encoded request has exactly one of RowIDs/RowKeys non-empty and exactly
one of ColumnIDs/ColumnKeys non-empty, and the populated row array, the
populated column array and the Timestamps array all have length equal to
the number of records, with the `i`-th entries taken from the `i`-th
record. -/
theorem import_request_exclusive_aligned (ik fk : Bool) (index_name field_name : String)
    (shard : Nat) (columns : List Column) (hne : columns ≠ []) :
    let req := toProtobuf (importFormat ik fk) index_name field_name shard columns
    ((req.RowIDs ≠ [] ∧ req.RowKeys = []) ∨ (req.RowIDs = [] ∧ req.RowKeys ≠ [])) ∧
    ((req.ColumnIDs ≠ [] ∧ req.ColumnKeys = []) ∨
      (req.ColumnIDs = [] ∧ req.ColumnKeys ≠ [])) ∧
    req.RowIDs.length + req.RowKeys.length = columns.length ∧
    req.ColumnIDs.length + req.ColumnKeys.length = columns.length ∧
    req.Timestamps.length = columns.length ∧
    ∀ i, ∀ hi : i < columns.length,
      req.Timestamps[i]? = some (columns.get ⟨i, hi⟩).timestamp ∧
      (req.RowIDs ≠ [] → req.RowIDs[i]? = some (columns.get ⟨i, hi⟩).row_id) ∧
      (req.RowKeys ≠ [] → req.RowKeys[i]? = some (columns.get ⟨i, hi⟩).row_key) ∧
      (req.ColumnIDs ≠ [] → req.ColumnIDs[i]? = some (columns.get ⟨i, hi⟩).column_id) ∧
      (req.ColumnKeys ≠ [] → req.ColumnKeys[i]? = some (columns.get ⟨i, hi⟩).column_key) := by
  cases ik <;> cases fk <;>
    simp [importFormat, toProtobuf, hne, List.getElem?_map,
      List.getElem?_eq_getElem, List.get_eq_getElem] <;>
    exact fun i hi =>
      ⟨⟨columns[i], List.getElem?_eq_getElem hi, rfl⟩,
       ⟨columns[i], List.getElem?_eq_getElem hi, rfl⟩,
       ⟨columns[i], List.getElem?_eq_getElem hi, rfl⟩⟩

/-- Witness for `import_request_exclusive_aligned` on a two-record list
in row-id/column-key mode. -/
theorem import_request_exclusive_aligned_witness :
    ([({ row_id := 7, column_key := "a", timestamp := 3 } : Column),
      { row_id := 9, column_key := "b", timestamp := 4 }] ≠ ([] : List Column)) ∧
    (let req := toProtobuf (importFormat true false) "idx" "fld" 0
        [{ row_id := 7, column_key := "a", timestamp := 3 },
         { row_id := 9, column_key := "b", timestamp := 4 }]
     ((req.RowIDs ≠ [] ∧ req.RowKeys = []) ∨ (req.RowIDs = [] ∧ req.RowKeys ≠ [])) ∧
     req.Timestamps.length = 2) := by
  refine ⟨by decide, ?_, ?_⟩
  · exact (import_request_exclusive_aligned true false "idx" "fld" 0 _ (by decide)).1
  · exact (import_request_exclusive_aligned true false "idx" "fld" 0 _ (by decide)).2.2.2.2.1

/-- **C3**: for a shard group imported for a field that is neither
value-typed (`field_type ≠ "int"`) nor keyed (neither the index nor the
field uses keys), `_import_data` sorts the records by
`(row_id, column_id)` ascending (keeping exactly the input records), so
the encoded RowIDs/ColumnIDs arrays are non-decreasing in
`(row_id, column_id)` lexicographic order. -/
theorem import_data_sorted_encoding (field : FieldDescriptor) (shard : Nat)
    (data : List Column) (hft : field.field_type ≠ "int")
    (hik : field.index_keys = false) (hfk : field.field_keys = false) :
    let req := toProtobuf (importFormat field.index_keys field.field_keys)
        field.index_name field.name shard (importDataPrepared field data)
    (importDataPrepared field data).Perm data ∧
    List.Pairwise (fun p q : Nat × Nat => p.1 < q.1 ∨ (p.1 = q.1 ∧ p.2 ≤ q.2))
      (req.RowIDs.zip req.ColumnIDs) := by
  have hprep : importDataPrepared field data = sortByRowCol data := by
    simp [importDataPrepared, hft, hik]
  have hsorted : List.Sorted colKeyLe (sortByRowCol data) :=
    List.sorted_insertionSort colKeyLe data
  refine ⟨?_, ?_⟩
  · rw [hprep]
    exact List.perm_insertionSort colKeyLe data
  · rw [hprep, hik, hfk]
    have hfmt : importFormat false false = RowFormat.row_id_column_id := rfl
    rw [hfmt]
    simp only [toProtobuf, List.zip_map']
    rw [List.pairwise_map]
    exact hsorted.imp (fun h => h)

/-- Witness for `import_data_sorted_encoding` on an unsorted three-record
list for a non-keyed set field. -/
theorem import_data_sorted_encoding_witness :
    (("set" : String) ≠ "int") ∧
    (let field : FieldDescriptor :=
      { name := "f", index_name := "i", field_type := "set", index_keys := false,
        field_keys := false, time_quantum := "", index_shard_width := 0 }
     let data : List Column :=
       [{ row_id := 2, column_id := 1 }, { row_id := 1, column_id := 9 },
        { row_id := 1, column_id := 3 }]
     let req := toProtobuf (importFormat field.index_keys field.field_keys)
        field.index_name field.name 0 (importDataPrepared field data)
     (importDataPrepared field data).Perm data ∧
     List.Pairwise (fun p q : Nat × Nat => p.1 < q.1 ∨ (p.1 = q.1 ∧ p.2 ≤ q.2))
       (req.RowIDs.zip req.ColumnIDs)) :=
  ⟨by decide,
   import_data_sorted_encoding _ 0 _ (by decide) (by decide) (by decide)⟩

theorem importFormat_eq_id_id_iff (ik fk : Bool) :
    importFormat ik fk = .row_id_column_id ↔ (ik = false ∧ fk = false) := by
  cases ik <;> cases fk <;> simp [importFormat]

/-- **C5**: for a non-value field, `_import_data` takes the compressed
bitmap fast path iff `fast_import` is set, the field type is one of
set/bool/time, and neither the index nor the field uses keys (the
id/id row format); in every other non-value case the row-oriented path
is used, so the fast path is never taken when keys are involved. -/
theorem fast_path_selection (field : FieldDescriptor) (fast_import : Bool)
    (hft : field.field_type ≠ "int") :
    (importRoute field fast_import = .fast ↔
      (fast_import = true ∧
       (field.field_type = "set" ∨ field.field_type = "bool" ∨ field.field_type = "time") ∧
       field.index_keys = false ∧ field.field_keys = false)) ∧
    (importRoute field fast_import ≠ .fast → importRoute field fast_import = .rowOriented) := by
  rw [importRoute, if_neg hft]
  constructor
  · split_ifs with hc
    · simp only [List.mem_cons, List.not_mem_nil, or_false, importFormat_eq_id_id_iff] at hc
      exact iff_of_true rfl ⟨hc.1, hc.2.1, hc.2.2⟩
    · simp only [List.mem_cons, List.not_mem_nil, or_false, importFormat_eq_id_id_iff] at hc
      constructor
      · intro h
        exact absurd h (by simp)
      · intro h
        exact absurd ⟨h.1, h.2.1, h.2.2⟩ hc
  · split_ifs with hc
    · intro h
      exact absurd rfl h
    · intro _
      rfl

/-- Witness for `fast_path_selection`: a keyed time field with
`fast_import = true` is not fast-pathed, and routes row-oriented. -/
theorem fast_path_selection_witness :
    (("time" : String) ≠ "int") ∧
    (importRoute
      { name := "f", index_name := "i", field_type := "time", index_keys := true,
        field_keys := false, time_quantum := "YM", index_shard_width := 0 }
      true = .rowOriented) := by
  have h := fast_path_selection
    { name := "f", index_name := "i", field_type := "time", index_keys := true,
      field_keys := false, time_quantum := "YM", index_shard_width := 0 }
    true (by decide)
  refine ⟨by decide, h.2 ?_⟩
  intro hfast
  have hc := h.1.mp hfast
  simp at hc

/-- **C7**: for every shard group dispatched without a manual address:
if the index or the field uses keys the destination is the coordinator
node (and the fragment-nodes lookup is never performed), otherwise the
destination is the fragment nodes fetched for `(index, shard)`; and for
an index with keys and a field without keys the encoder selects the
row-id/column-key wire variant. -/
theorem import_destination_resolution (field : FieldDescriptor) (shard : Nat) :
    ((field.index_keys || field.field_keys) = true →
      resolveDestination false field shard = .coordinator) ∧
    ((field.index_keys || field.field_keys) = false →
      resolveDestination false field shard = .fragments field.index_name shard) ∧
    importFormat true false = .row_id_column_key := by
  refine ⟨fun h => ?_, fun h => ?_, rfl⟩
  · simp [resolveDestination, h]
  · simp [resolveDestination, h]

/-- Witness for `import_destination_resolution` at a keyed index and at a
fully non-keyed field. -/
theorem import_destination_resolution_witness :
    resolveDestination false
      { name := "f", index_name := "i", field_type := "set", index_keys := true,
        field_keys := false, time_quantum := "", index_shard_width := 0 }
      5 = .coordinator ∧
    resolveDestination false
      { name := "g", index_name := "j", field_type := "set", index_keys := false,
        field_keys := false, time_quantum := "", index_shard_width := 0 }
      5 = .fragments "j" 5 ∧
    importFormat true false = .row_id_column_key :=
  ⟨(import_destination_resolution
      { name := "f", index_name := "i", field_type := "set", index_keys := true,
        field_keys := false, time_quantum := "", index_shard_width := 0 } 5).1 rfl,
   (import_destination_resolution
      { name := "g", index_name := "j", field_type := "set", index_keys := false,
        field_keys := false, time_quantum := "", index_shard_width := 0 } 5).2.1 rfl,
   (import_destination_resolution
      { name := "f", index_name := "i", field_type := "set", index_keys := true,
        field_keys := false, time_quantum := "", index_shard_width := 0 } 5).2.2⟩

/-- **C4**: for a fast-path bitmap import with time quantum `"YM"` and a
single record timestamped 2020-03-15T10:00:00Z (epoch 1584266400), the
produced roaring request has exactly the three views `""`, `"2020"` and
`"202003"`, each containing the one derived bit of the record. -/
theorem time_quantum_fanout_YM (r c : Nat) :
    toBitmapViews "YM" [{ row_id := r, column_id := c, timestamp := 1584266400 }] =
      [("", [r * 1048576 + c % 1048576]),
       ("2020", [r * 1048576 + c % 1048576]),
       ("202003", [r * 1048576 + c % 1048576])] := by
  have hY : quantumViewName 'Y' 1584266400 = "2020" := by decide
  have hM : quantumViewName 'M' 1584266400 = "202003" := by decide
  simp only [toBitmapViews, if_pos (by decide : ("YM" : String) ≠ ""),
    fieldTimeToRoaring, List.foldl_cons, List.foldl_nil, addRecordViews]
  rw [show ("YM".toList) = ['Y', 'M'] from rfl]
  simp only [List.foldl_cons, List.foldl_nil, hY, hM]
  simp [updateView, bitmapAdd]

/-- Counterexample to **C6** as stated: for an index with shard width 2,
the fast path still encodes record `(row 0, column 3)` as bit
`3 = 0 * 1048576 + 3 % 1048576` (standard view `[3]`), while the
claimed mapping `row_id * shard_width + column_id % shard_width` with
the field's index shard width gives `1`. -/
theorem fast_path_bit_width_counterexample :
    toBitmapViews "" [{ row_id := 0, column_id := 3 }] = [("", [3])] ∧
    claimedBitmapBit 2 { row_id := 0, column_id := 3 } = 1 ∧
    toBitmapBit { row_id := 0, column_id := 3 } ≠
      claimedBitmapBit 2 { row_id := 0, column_id := 3 } := by
  refine ⟨?_, by decide, by decide⟩
  simp [toBitmapViews, fieldSetToRoaring, bitmapAdd]

theorem mem_bitmapAdd_self (bm : List Nat) (n : Nat) : n ∈ bitmapAdd bm n := by
  unfold bitmapAdd
  split_ifs with h
  · exact h
  · simp

theorem mem_bitmapAdd_of_mem (bm : List Nat) (x n : Nat) (hx : x ∈ bm) :
    x ∈ bitmapAdd bm n := by
  unfold bitmapAdd
  split_ifs with h
  · exact hx
  · simp [hx]

theorem viewLookup_cons (k : String) (g : List Nat) (rest : List (String × List Nat))
    (name : String) :
    viewLookup name ((k, g) :: rest) =
      if k = name then some g else viewLookup name rest := rfl

theorem updateView_cons (k : String) (g : List Nat) (rest : List (String × List Nat))
    (name : String) (bit : Nat) :
    updateView name bit ((k, g) :: rest) =
      if k = name then (k, bitmapAdd g bit) :: rest
      else (k, g) :: updateView name bit rest := rfl

theorem viewLookup_updateView_self (name : String) (bit : Nat)
    (vs : List (String × List Nat)) :
    ∃ bm, viewLookup name (updateView name bit vs) = some bm ∧ bit ∈ bm := by
  induction vs with
  | nil =>
    refine ⟨[bit], ?_, by simp⟩
    simp [updateView, viewLookup]
  | cons kv rest ih =>
    obtain ⟨k, g⟩ := kv
    rw [updateView_cons]
    by_cases hk : k = name
    · rw [if_pos hk, viewLookup_cons, if_pos hk]
      exact ⟨bitmapAdd g bit, rfl, mem_bitmapAdd_self g bit⟩
    · rw [if_neg hk, viewLookup_cons, if_neg hk]
      exact ih

theorem viewLookup_updateView_preserve (name other : String) (bit x : Nat)
    (vs : List (String × List Nat)) (bm : List Nat)
    (hbm : viewLookup name vs = some bm) (hx : x ∈ bm) :
    ∃ bm2, viewLookup name (updateView other bit vs) = some bm2 ∧ x ∈ bm2 := by
  induction vs with
  | nil => simp [viewLookup] at hbm
  | cons kv rest ih =>
    obtain ⟨k, g⟩ := kv
    rw [viewLookup_cons] at hbm
    rw [updateView_cons]
    by_cases hko : k = other
    · rw [if_pos hko, viewLookup_cons]
      by_cases hk : k = name
      · rw [if_pos hk] at hbm
        rw [if_pos hk]
        have hgb : g = bm := Option.some.inj hbm
        exact ⟨bitmapAdd g bit, rfl, mem_bitmapAdd_of_mem g x bit (hgb ▸ hx)⟩
      · rw [if_neg hk] at hbm
        rw [if_neg hk]
        exact ⟨bm, hbm, hx⟩
    · rw [if_neg hko, viewLookup_cons]
      by_cases hk : k = name
      · rw [if_pos hk] at hbm
        rw [if_pos hk]
        have hgb : g = bm := Option.some.inj hbm
        exact ⟨g, rfl, hgb ▸ hx⟩
      · rw [if_neg hk] at hbm
        rw [if_neg hk]
        exact ih hbm

/-- Bits present in a view survive a fold of `updateView` updates. -/
theorem foldl_updateView_preserve (names : List Char) (toName : Char → String)
    (bit : Nat) (name : String) (x : Nat) :
    ∀ (vs : List (String × List Nat)) (bm : List Nat),
      viewLookup name vs = some bm → x ∈ bm →
      ∃ bm2, viewLookup name
          (names.foldl (fun views c => updateView (toName c) bit views) vs) = some bm2 ∧
        x ∈ bm2 := by
  induction names with
  | nil => exact fun vs bm hbm hx => ⟨bm, hbm, hx⟩
  | cons c cs ih =>
    intro vs bm hbm hx
    simp only [List.foldl_cons]
    obtain ⟨bm1, hbm1, hx1⟩ :=
      viewLookup_updateView_preserve name (toName c) bit x vs bm hbm hx
    exact ih _ _ hbm1 hx1

/-- A fold of `updateView` updates establishes the bit under every name
of the list. -/
theorem foldl_updateView_establish (names : List Char) (toName : Char → String)
    (bit : Nat) (c : Char) (hc : c ∈ names) :
    ∀ vs : List (String × List Nat),
      ∃ bm, viewLookup (toName c)
          (names.foldl (fun views ch => updateView (toName ch) bit views) vs) = some bm ∧
        bit ∈ bm := by
  induction names with
  | nil => cases hc
  | cons c0 cs ih =>
    intro vs
    simp only [List.foldl_cons]
    by_cases hmem : c ∈ cs
    · exact ih hmem _
    · have hc0 : c = c0 := by
        rcases List.mem_cons.mp hc with h | h
        · exact h
        · exact absurd h hmem
      subst hc0
      obtain ⟨bm0, hbm0, hx0⟩ := viewLookup_updateView_self (toName c) bit vs
      exact foldl_updateView_preserve cs toName bit (toName c) bit _ bm0 hbm0 hx0

/-- Bits present in a view survive one whole-record update. -/
theorem viewLookup_addRecordViews_preserve (quantum : String) (sw : Nat)
    (name : String) (x : Nat) (b : Column) (vs : List (String × List Nat))
    (bm : List Nat) (hbm : viewLookup name vs = some bm) (hx : x ∈ bm) :
    ∃ bm2, viewLookup name (addRecordViews quantum sw vs b) = some bm2 ∧ x ∈ bm2 := by
  unfold addRecordViews
  obtain ⟨bm0, hbm0, hx0⟩ := viewLookup_updateView_preserve name "" _ x vs bm hbm hx
  exact foldl_updateView_preserve quantum.toList _ _ name x _ bm0 hbm0 hx0

/-- One whole-record update puts the record's bit into the standard view
and into the view of every quantum character. -/
theorem addRecordViews_establish (quantum : String) (sw : Nat) (b : Column)
    (vs : List (String × List Nat)) :
    (∃ bm, viewLookup "" (addRecordViews quantum sw vs b) = some bm ∧
      (b.row_id * sw + b.column_id % sw) ∈ bm) ∧
    (∀ c ∈ quantum.toList,
      ∃ bm, viewLookup (quantumViewName c b.timestamp)
          (addRecordViews quantum sw vs b) = some bm ∧
        (b.row_id * sw + b.column_id % sw) ∈ bm) := by
  constructor
  · unfold addRecordViews
    obtain ⟨bm0, hbm0, hx0⟩ :=
      viewLookup_updateView_self "" (b.row_id * sw + b.column_id % sw) vs
    exact foldl_updateView_preserve quantum.toList _ _ "" _ _ bm0 hbm0 hx0
  · intro c hc
    unfold addRecordViews
    exact foldl_updateView_establish quantum.toList
      (fun ch => quantumViewName ch b.timestamp) _ c hc _

/-- Folding the remaining records preserves established bits. -/
theorem fieldTime_foldl_preserve (quantum : String) (sw : Nat) (name : String)
    (x : Nat) (rest : List Column) (vs : List (String × List Nat)) (bm : List Nat)
    (hbm : viewLookup name vs = some bm) (hx : x ∈ bm) :
    ∃ bm2, viewLookup name (rest.foldl (addRecordViews quantum sw) vs) = some bm2 ∧
      x ∈ bm2 := by
  induction rest generalizing vs bm with
  | nil => exact ⟨bm, hbm, hx⟩
  | cons b bs ih =>
    simp only [List.foldl_cons]
    obtain ⟨bm1, hbm1, hx1⟩ :=
      viewLookup_addRecordViews_preserve quantum sw name x b vs bm hbm hx
    exact ih _ _ hbm1 hx1

theorem fieldTimeToRoaring_establish (quantum : String) (sw : Nat)
    (columns : List Column) (b : Column) (hb : b ∈ columns) :
    (∃ bm, viewLookup "" (fieldTimeToRoaring quantum sw columns) = some bm ∧
      (b.row_id * sw + b.column_id % sw) ∈ bm) ∧
    (∀ c ∈ quantum.toList,
      ∃ bm, viewLookup (quantumViewName c b.timestamp)
          (fieldTimeToRoaring quantum sw columns) = some bm ∧
        (b.row_id * sw + b.column_id % sw) ∈ bm) := by
  unfold fieldTimeToRoaring
  revert hb
  generalize [("", ([] : List Nat))] = vs0
  induction columns generalizing vs0 with
  | nil => intro hb; cases hb
  | cons b0 bs ih =>
    intro hb
    rcases List.mem_cons.mp hb with hb0 | hbs
    · subst hb0
      simp only [List.foldl_cons]
      have hest := addRecordViews_establish quantum sw b vs0
      constructor
      · obtain ⟨bm, hbm, hx⟩ := hest.1
        exact fieldTime_foldl_preserve quantum sw "" _ bs _ bm hbm hx
      · intro c hc
        obtain ⟨bm, hbm, hx⟩ := hest.2 c hc
        exact fieldTime_foldl_preserve quantum sw _ _ bs _ bm hbm hx
    · simp only [List.foldl_cons]
      exact ih _ hbs

theorem mem_foldl_bitmapAdd (f : Column → Nat) (columns : List Column) :
    ∀ (acc : List Nat) (x : Nat), (x ∈ acc ∨ ∃ b ∈ columns, f b = x) →
      x ∈ columns.foldl (fun bm r => bitmapAdd bm (f r)) acc := by
  induction columns with
  | nil =>
    intro acc x h
    rcases h with h | ⟨b, hb, _⟩
    · exact h
    · cases hb
  | cons r rs ih =>
    intro acc x h
    simp only [List.foldl_cons]
    rcases h with h | ⟨b, hb, hf⟩
    · exact ih _ _ (Or.inl (mem_bitmapAdd_of_mem _ _ _ h))
    · rcases List.mem_cons.mp hb with hbr | hbs
      · subst hbr
        exact ih _ _ (Or.inl (hf ▸ mem_bitmapAdd_self acc (f b)))
      · exact ih _ _ (Or.inr ⟨b, hbs, hf⟩)

theorem fieldSetToRoaring_establish (sw : Nat) (columns : List Column)
    (b : Column) (hb : b ∈ columns) :
    ∃ bm, viewLookup "" (fieldSetToRoaring sw columns) = some bm ∧
      (b.row_id * sw + b.column_id % sw) ∈ bm := by
  refine ⟨columns.foldl
      (fun bm r => bitmapAdd bm (r.row_id * sw + r.column_id % sw)) [],
    by simp [fieldSetToRoaring, viewLookup], ?_⟩
  exact mem_foldl_bitmapAdd (fun r => r.row_id * sw + r.column_id % sw) columns [] _
    (Or.inr ⟨b, hb, rfl⟩)

/-- **C6 (amended)**: in the fast-path bitmap encoding, every record is
mapped to the single integer
`row_id * 1048576 + (column_id mod 1048576)` — `to_bitmap` hardcodes
`shard_width = 1048576`, the default index shard width, and does not
consult the field's configured index shard width — and that bit is added
to the standard view's bitmap and to every time-quantum view's bitmap
for that record. -/
theorem fast_path_bit_hardcoded_width (quantum : String) (columns : List Column)
    (b : Column) (hb : b ∈ columns) :
    toBitmapBit b = b.row_id * 1048576 + b.column_id % 1048576 ∧
    (∃ bm, viewLookup "" (toBitmapViews quantum columns) = some bm ∧
      toBitmapBit b ∈ bm) ∧
    (∀ c ∈ quantum.toList,
      quantum ≠ "" →
      ∃ bm, viewLookup (quantumViewName c b.timestamp)
          (toBitmapViews quantum columns) = some bm ∧ toBitmapBit b ∈ bm) := by
  refine ⟨rfl, ?_, ?_⟩
  · unfold toBitmapViews
    split_ifs with hq
    · exact (fieldTimeToRoaring_establish quantum 1048576 columns b hb).1
    · exact fieldSetToRoaring_establish 1048576 columns b hb
  · intro c hc hq
    unfold toBitmapViews
    rw [if_pos hq]
    exact (fieldTimeToRoaring_establish quantum 1048576 columns b hb).2 c hc

/-- Witness for `fast_path_bit_hardcoded_width`: quantum `"YM"`, two
records, membership of the second record's bit in the standard and both
quantum views. -/
theorem fast_path_bit_hardcoded_width_witness :
    (({ row_id := 1, column_id := 2, timestamp := 1584266400 } : Column) ∈
      [({ row_id := 0, column_id := 7, timestamp := 0 } : Column),
       { row_id := 1, column_id := 2, timestamp := 1584266400 }]) ∧
    (toBitmapBit { row_id := 1, column_id := 2, timestamp := 1584266400 } =
        1 * 1048576 + 2 % 1048576 ∧
      (∃ bm, viewLookup ""
          (toBitmapViews "YM"
            [{ row_id := 0, column_id := 7, timestamp := 0 },
             { row_id := 1, column_id := 2, timestamp := 1584266400 }]) = some bm ∧
        toBitmapBit { row_id := 1, column_id := 2, timestamp := 1584266400 } ∈ bm) ∧
      (∀ c ∈ ("YM" : String).toList,
        ("YM" : String) ≠ "" →
        ∃ bm, viewLookup (quantumViewName c 1584266400)
            (toBitmapViews "YM"
              [{ row_id := 0, column_id := 7, timestamp := 0 },
               { row_id := 1, column_id := 2, timestamp := 1584266400 }]) = some bm ∧
          toBitmapBit { row_id := 1, column_id := 2, timestamp := 1584266400 } ∈ bm)) :=
  ⟨by decide,
   fast_path_bit_hardcoded_width "YM"
     [{ row_id := 0, column_id := 7, timestamp := 0 },
      { row_id := 1, column_id := 2, timestamp := 1584266400 }]
     { row_id := 1, column_id := 2, timestamp := 1584266400 } (by decide)⟩

theorem catchValueError_ok {α : Type} (line : String) (c : α) :
    catchValueError line (.ok c) = .ok c := rfl

theorem catchValueError_pilosa {α : Type} (line m : String) :
    catchValueError line (.error (.pilosaError m)) =
      (.error (.pilosaError m) : Except ReadError α) := rfl

theorem catchValueError_value {α : Type} (line a : String) :
    catchValueError line (.error (.valueError a)) =
      (.error (.pilosaError line) : Except ReadError α) := rfl

theorem parseIntField_only_valueError (s : String) (e : ReadError)
    (h : parseIntField s = .error e) : ∃ a, e = .valueError a := by
  unfold parseIntField at h
  cases hp : pyInt s with
  | none =>
    rw [hp] at h
    exact ⟨s, (Except.error.inj h).symm⟩
  | some n =>
    rw [hp] at h
    cases h

theorem csv_row_id_column_id_only_valueError (p : List String) (t : Int)
    (e : ReadError) (h : csv_row_id_column_id p t = .error e) :
    ∃ a, e = .valueError a := by
  unfold csv_row_id_column_id at h
  cases h0 : parseIntField (p.getD 0 "") with
  | error e0 =>
    rw [h0] at h
    exact parseIntField_only_valueError _ _ (h0.trans (congrArg Except.error (Except.error.inj h)))
  | ok rid =>
    rw [h0] at h
    cases h1 : parseIntField (p.getD 1 "") with
    | error e1 =>
      rw [h1] at h
      exact parseIntField_only_valueError _ _ (h1.trans (congrArg Except.error (Except.error.inj h)))
    | ok cid =>
      rw [h1] at h
      cases h

/-- Counterexample to **C8** as stated: on the line `"a,5"` (two fields,
non-integer column id), `csv_field_value_reader` with the default
`csv_column_id_value` formatter propagates the `ValueError` from
`int("a")` unchanged — the format call is outside any
`try`/`except ValueError` — instead of failing with the
`PilosaError` naming the line. -/
theorem csv_field_value_reader_valueerror_counterexample :
    csv_field_value_reader csv_column_id_value ["a,5"] = .error (.valueError "a") ∧
    ∀ l, (ReadError.valueError "a") ≠ .pilosaError l := by
  refine ⟨rfl, ?_⟩
  intro l h
  exact ReadError.noConfusion h

/-- **C8 (amended)**: for every non-blank produced line,
`csv_column_reader` fails with the `PilosaError` naming the (stripped)
offending line — both for a field count other than 2 or 3 and, given
that the time and format functions fail only by `ValueError` (as the
repository's formatters and the default `int` do), for any field that
fails its selected parse — and the whole read aborts at such a line
rather than skipping it; `csv_field_value_reader`, however, raises
`PilosaError` only for a field count other than 2, and passes the
format function's outcome through unwrapped, so a non-integer field
escapes as a `ValueError` rather than a `PilosaError`. -/
theorem csv_readers_parse_error_behavior
    (timefunc : String → Except ReadError Int)
    (formatfunc : List String → Int → Except ReadError Column)
    (vformatfunc : List String → Int → Except ReadError FieldValue)
    (htf : ∀ s e, timefunc s = .error e → ∃ a, e = .valueError a)
    (hff : ∀ p t e, formatfunc p t = .error e → ∃ a, e = .valueError a) :
    (∀ lines e, csv_column_reader timefunc formatfunc lines = .error e →
      ∃ l ∈ lines, columnLineResult timefunc formatfunc l = some (.error e)) ∧
    (∀ line e, columnLineResult timefunc formatfunc line = some (.error e) →
      e = .pilosaError (pyStrip line)) ∧
    (∀ line, pyStrip line ≠ "" →
      (pySplitComma (pyStrip line)).length ≠ 2 →
      (pySplitComma (pyStrip line)).length ≠ 3 →
      columnLineResult timefunc formatfunc line =
        some (.error (.pilosaError (pyStrip line)))) ∧
    (∀ line, pyStrip line ≠ "" →
      (pySplitComma (pyStrip line)).length ≠ 2 →
      valueLineResult vformatfunc line =
        some (.error (.pilosaError (pyStrip line)))) ∧
    (∀ line, pyStrip line ≠ "" →
      (pySplitComma (pyStrip line)).length = 2 →
      valueLineResult vformatfunc line =
        some (vformatfunc (pySplitComma (pyStrip line)) 0)) := by
  refine ⟨?_, ?_, ?_, ?_, ?_⟩
  · intro lines
    induction lines with
    | nil =>
      intro e h
      cases h
    | cons l ls ih =>
      intro e h
      cases hcl : columnLineResult timefunc formatfunc l with
      | none =>
        rw [csv_column_reader, hcl] at h
        obtain ⟨l2, hl2, hres⟩ := ih e h
        exact ⟨l2, List.mem_cons_of_mem l hl2, hres⟩
      | some r =>
        cases r with
        | error e2 =>
          rw [csv_column_reader, hcl] at h
          obtain he2 := Except.error.inj h
          exact ⟨l, List.mem_cons_self l ls, by rw [hcl, he2]⟩
        | ok c =>
          rw [csv_column_reader, hcl] at h
          cases hrec : csv_column_reader timefunc formatfunc ls with
          | error e2 =>
            rw [hrec] at h
            obtain he2 := Except.error.inj h
            obtain ⟨l2, hl2, hres⟩ := ih e (by rw [hrec, he2])
            exact ⟨l2, List.mem_cons_of_mem l hl2, hres⟩
          | ok cs =>
            rw [hrec] at h
            cases h
  · intro line e h
    unfold columnLineResult at h
    by_cases hb : pyStrip line = ""
    · rw [if_pos hb] at h
      cases h
    · rw [if_neg hb] at h
      obtain hcatch := Option.some.inj h
      by_cases h2 : (pySplitComma (pyStrip line)).length = 2
      · rw [if_pos h2] at hcatch
        cases hf : formatfunc (pySplitComma (pyStrip line)) 0 with
        | error ef =>
          rw [hf] at hcatch
          obtain ⟨a, ha⟩ := hff _ _ _ hf
          rw [ha, catchValueError_value] at hcatch
          exact (Except.error.inj hcatch).symm
        | ok c =>
          rw [hf, catchValueError_ok] at hcatch
          cases hcatch
      · rw [if_neg h2] at hcatch
        by_cases h3 : (pySplitComma (pyStrip line)).length = 3
        · rw [if_pos h3] at hcatch
          cases ht : timefunc ((pySplitComma (pyStrip line)).getD 2 "") with
          | error et =>
            rw [ht] at hcatch
            obtain ⟨a, ha⟩ := htf _ _ ht
            rw [ha, catchValueError_value] at hcatch
            exact (Except.error.inj hcatch).symm
          | ok ts =>
            simp only [ht] at hcatch
            cases hf : formatfunc (pySplitComma (pyStrip line)) ts with
            | error ef =>
              rw [hf] at hcatch
              obtain ⟨a, ha⟩ := hff _ _ _ hf
              rw [ha, catchValueError_value] at hcatch
              exact (Except.error.inj hcatch).symm
            | ok c =>
              rw [hf, catchValueError_ok] at hcatch
              cases hcatch
        · rw [if_neg h3, catchValueError_pilosa] at hcatch
          exact (Except.error.inj hcatch).symm
  · intro line h1 h2 h3
    unfold columnLineResult
    rw [if_neg h1, if_neg h2, if_neg h3, catchValueError_pilosa]
  · intro line h1 h2
    unfold valueLineResult
    rw [if_neg h1, if_neg h2]
  · intro line h1 h2
    unfold valueLineResult
    rw [if_neg h1, if_pos h2]

/-- Witness for `csv_readers_parse_error_behavior` with the default
time function and the id/id and id/value formatters, on the
single-field line `"155"` and the bad-value line `"a,5"`. -/
theorem csv_readers_parse_error_behavior_witness :
    (columnLineResult defaultTimefunc csv_row_id_column_id "155" =
      some (.error (.pilosaError "155"))) ∧
    (valueLineResult csv_column_id_value "155" =
      some (.error (.pilosaError "155"))) ∧
    (valueLineResult csv_column_id_value "a,5" =
      some (.error (.valueError "a"))) := by
  have h := csv_readers_parse_error_behavior defaultTimefunc
    csv_row_id_column_id csv_column_id_value
    (fun s e he => parseIntField_only_valueError s e he)
    (fun p t e he => csv_row_id_column_id_only_valueError p t e he)
  refine ⟨?_, ?_, ?_⟩
  · exact h.2.2.1 "155" (by decide) (by decide) (by decide)
  · exact h.2.2.2.1 "155" (by decide) (by decide)
  · exact (h.2.2.2.2 "a,5" (by decide) (by decide)).trans (by rfl)

/-- Counterexample to **C10** as stated: on the line `"a, b"` with the
key/key selector, the reader yields `column_key = " b"` — individual
fields are not trimmed (only the whole line is stripped), so the field
after the comma keeps its leading space. -/
theorem csv_reader_no_field_trim_counterexample :
    csv_column_reader defaultTimefunc csv_row_key_column_key ["a, b"] =
      .ok [{ row_key := "a", column_key := " b" }] ∧
    (" b" : String) ≠ "b" :=
  ⟨rfl, by decide⟩

/-- **C10 (amended)**: `csv_column_reader` strips the whole line, splits
the stripped line on commas, and uses each resulting field verbatim —
no per-field trimming — so with the key/key selector a two-field line
yields exactly the split pieces as `row_key` and `column_key` (the
field after a comma-space keeps its leading space, e.g. `"a, b"` gives
`row_key = "a"` and `column_key = " b"`). -/
theorem csv_reader_splits_untrimmed
    (timefunc : String → Except ReadError Int) (line : String)
    (h1 : pyStrip line ≠ "")
    (h2 : (pySplitComma (pyStrip line)).length = 2) :
    columnLineResult timefunc csv_row_key_column_key line =
      some (.ok { row_key := (pySplitComma (pyStrip line)).getD 0 "",
                  column_key := (pySplitComma (pyStrip line)).getD 1 "",
                  timestamp := 0 }) := by
  unfold columnLineResult
  rw [if_neg h1, if_pos h2]
  rfl

/-- Witness for `csv_reader_splits_untrimmed` at the line `"a, b"`. -/
theorem csv_reader_splits_untrimmed_witness :
    columnLineResult defaultTimefunc csv_row_key_column_key "a, b" =
      some (.ok { row_key := "a", column_key := " b", timestamp := 0 }) := by
  have h := csv_reader_splits_untrimmed defaultTimefunc "a, b" (by decide) (by decide)
  exact h.trans (by rfl)

/-- **C9**: if the POST at position `k` (0-based) is the first to
receive a non-2xx status, the import call stops there: exactly `k + 1`
POSTs are issued (no further shard groups are dispatched), and the call
fails with the single terminal `PilosaServerError` of that first
failing request — the result carries no record of which earlier
requests committed. -/
theorem import_fails_fast_on_http_error (statuses : List Nat) (k : Nat)
    (hk : k < statuses.length)
    (hfail : ¬(200 ≤ statuses.get ⟨k, hk⟩ ∧ statuses.get ⟨k, hk⟩ < 300))
    (hprev : ∀ j (hj : j < k),
      200 ≤ statuses.get ⟨j, Nat.lt_trans hj hk⟩ ∧
        statuses.get ⟨j, Nat.lt_trans hj hk⟩ < 300) :
    runImportPosts statuses =
      (k + 1, .error (.serverError (statuses.get ⟨k, hk⟩))) := by
  induction statuses generalizing k with
  | nil => exact absurd hk (by simp)
  | cons s rest ih =>
    cases k with
    | zero =>
      simp only [List.get] at hfail ⊢
      rw [runImportPosts, httpCheckStatus, if_neg hfail]
    | succ k2 =>
      have hs : 200 ≤ s ∧ s < 300 := by
        have h0 := hprev 0 (Nat.succ_pos k2)
        simpa using h0
      have hk2 : k2 < rest.length := by
        simpa using hk
      have hrec := ih k2 hk2 (by simpa using hfail)
        (fun j hj => by simpa using hprev (j + 1) (by omega))
      rw [runImportPosts, httpCheckStatus, if_pos hs, hrec]
      simp

/-- Witness for `import_fails_fast_on_http_error`: with responses
`[200, 503, 204]` the loop stops after the 2nd POST with the 503
error. -/
theorem import_fails_fast_on_http_error_witness :
    runImportPosts [200, 503, 204] = (2, .error (.serverError 503)) := by
  have h := import_fails_fast_on_http_error [200, 503, 204] 1 (by decide)
    (by decide)
    (by
      intro j hj
      have hj0 : j = 0 := by omega
      subst hj0
      show 200 ≤ 200 ∧ 200 < 300
      decide)
  exact h

end Pilosa
